import Mathlib

/-!
Shallow embedding of the MerchMate recompute scheduler and worker-pool
dispatcher (OCRProcessor in `src/unnamed/part_002` and
PathfinderUtilityPool in `src/src/app/workers/pathfinder-utility.ts`).

Conventions:
* JS numbers that hold KP totals, distances and efficiencies are modelled
  as rationals (`ℚ`); timestamps and slot indices as naturals.
* `distanceSeconds` starts as `NaN` in the source and is reset to `NaN`
  when the cached solution is cleared; we model it as `Option ℚ` with
  `none` standing for `NaN` (every `x > 0` comparison on `NaN` is false,
  matching the `none` branch of `distPos`).
* JS objects keyed by slot index (`{ [index: number]: string }`) are
  modelled as association lists `List (ℕ × String)` whose key lists are
  `Nodup`; JS iterates integer keys in ascending order, and every use the
  claims depend on is order-insensitive given distinct keys.
* `Array.prototype.sort` on numbers is modelled by `List.insertionSort`
  (any deterministic comparison sort is an adequate model).
* Asynchronous work is modelled by explicit outcome parameters: a search
  completion is a value of `Except Unit FindBestResult`, and a worker
  shard's behaviour is a `ShardOutcome`.
-/

/-- Match confidence recorded in `OCRProcessor.matchTypes`. -/
inductive MatchType where
  | exact
  | fuzzy
deriving DecidableEq, Repr

/-- Route steps (`Step` in `src/src/app/config/types.ts`); `return` is a
Lean keyword, so that constructor is named `ret`. -/
inductive Step where
  | teleport (location : String) (distance : ℚ)
  | buy (item : String) (location : String) (distance : ℚ)
  | sell (item : String) (location : String) (distance : ℚ)
  | ret (location : String) (distance : ℚ)
deriving DecidableEq, Repr

/-- `FindBestResult` from `src/src/app/config/types.ts`. -/
structure FindBestResult where
  bounties : List String
  kp : ℚ
  actions : List Step
  distance : ℚ
deriving DecidableEq, Repr

/-- `InFlightFind` from `src/unnamed/part_002` (the promise field is not
modelled; completion is applied explicitly via `completeFind`). -/
structure InFlightFind where
  signature : String
  startedAtMs : ℕ
deriving DecidableEq, Repr

/-- The scheduler-owned mutable state of `OCRProcessor`
(`src/unnamed/part_002`), restricted to the fields the verified claims
mention. -/
structure OCRProcessor where
  activeBounties : List (ℕ × String)
  boardBounties : List (ℕ × String)
  prevOptimalBounties : List String
  kp : ℚ
  distanceSeconds : Option ℚ
  steps : List Step
  stepIdx : ℕ
  displaySteps : List Step
  displayKp : ℚ
  displayDistanceSeconds : Option ℚ
  runCompleted : Bool
  inFlightFind : Option InFlightFind
  launchedAtLeastOnce : Bool
  prevAllBountiesSignature : String
  forceOptimal : Bool
  pathfinderTimeoutMs : ℕ
deriving DecidableEq, Repr

/-- Association-list lookup by slot index (JS `obj[idx]`). -/
def lookupIdx : List (ℕ × String) → ℕ → Option String
  | [], _ => none
  | (i, v) :: rest, j => if i = j then some v else lookupIdx rest j

/-- JS `obj[idx] = v` on an association list: overwrite the binding if the
key is present, otherwise append it. -/
def setIdx (l : List (ℕ × String)) (i : ℕ) (v : String) : List (ℕ × String) :=
  if l.any (fun p => p.1 = i) then
    l.map (fun p => if p.1 = i then (i, v) else p)
  else
    l ++ [(i, v)]

/-- `makeAllBountiesSignature`: sorted-join of the bounty multiset
(`allBounties.slice().sort().join('|')`). -/
def makeAllBountiesSignature (allBounties : List String) : String :=
  String.intercalate "|" (List.insertionSort (fun a b : String => a ≤ b) allBounties)

/-- The JS comparison `this.distanceSeconds > 0` (false on `NaN`/`none`). -/
def distPos : Option ℚ → Bool
  | some d => decide (0 < d)
  | none => false

/-- `currentEfficiency` as computed in `launchFindBestIfNeeded`:
`kp / distanceSeconds` when a solution is cached and its distance is
positive, otherwise `0`. -/
def currentEfficiency (st : OCRProcessor) : ℚ :=
  if st.prevOptimalBounties ≠ [] ∧ distPos st.distanceSeconds then
    st.kp / st.distanceSeconds.getD 0
  else 0

/-- The redundant-`buy` filter run on a freshly accepted solution when the
step cursor is non-zero: scan the actions keeping a currently-held set
seeded from the active slots, drop `buy` steps whose item is already held,
add bought items, remove sold items. -/
def filterRedundantBuys : List String → List Step → List Step
  | _, [] => []
  | held, step :: rest =>
    match step with
    | .buy item loc d =>
      if item ∈ held then filterRedundantBuys held rest
      else .buy item loc d :: filterRedundantBuys (item :: held) rest
    | .sell item loc d =>
      .sell item loc d :: filterRedundantBuys (held.filter (fun x => ¬ x = item)) rest
    | s => s :: filterRedundantBuys held rest

/-- The success path of the completion handler inside
`launchFindBestIfNeeded` (lines 497-555 of `src/unnamed/part_002`):
strict-improvement acceptance, display-value update gated on
`runCompleted`, redundant-buy filtering when the step cursor is non-zero,
and the `prevAllBountiesSignature` update that runs in both branches. -/
def applyFindBestSuccess (st : OCRProcessor) (r : FindBestResult) (signature : String) :
    OCRProcessor :=
  let newEfficiency := r.kp / r.distance
  let curEfficiency := currentEfficiency st
  if curEfficiency = 0 ∨ newEfficiency > curEfficiency then
    let filteredSteps :=
      if 0 < st.stepIdx ∧ r.actions ≠ [] then
        filterRedundantBuys (st.activeBounties.map Prod.snd) r.actions
      else r.actions
    { st with
      prevOptimalBounties := r.bounties
      kp := r.kp
      distanceSeconds := some r.distance
      displayKp := if st.runCompleted then st.displayKp else r.kp
      displayDistanceSeconds :=
        if st.runCompleted then st.displayDistanceSeconds else some r.distance
      steps := filteredSteps
      stepIdx := if 0 < st.stepIdx ∧ r.actions ≠ [] then 0 else st.stepIdx
      displaySteps := if st.runCompleted then st.displaySteps else filteredSteps
      prevAllBountiesSignature := signature }
  else
    { st with prevAllBountiesSignature := signature }

/-- The `finally` clause of the completion handler: the in-flight record is
cleared only when its signature matches the completing search. -/
def clearInFlightIfSig (st : OCRProcessor) (signature : String) : OCRProcessor :=
  match st.inFlightFind with
  | some f => if f.signature = signature then { st with inFlightFind := none } else st
  | none => st

/-- Completion of a launched search with outcome `outcome`.  On success
`computeFindBest` clears the force-optimal flag (when set) before the
acceptance logic runs; on a thrown computation its `catch` clears the flag
unconditionally and the outer `catch` keeps all other state.  The
`finally` clause clears the matching in-flight record in both cases. -/
def completeFind (st : OCRProcessor) (signature : String)
    (outcome : Except Unit FindBestResult) : OCRProcessor :=
  clearInFlightIfSig
    (match outcome with
     | .error _ => { st with forceOptimal := false }
     | .ok r =>
       applyFindBestSuccess
         (if st.forceOptimal then { st with forceOptimal := false } else st) r signature)
    signature

/-- `launchFindBestIfNeeded` (lines 470-492 of `src/unnamed/part_002`) up
to and including the creation of the in-flight record; returns the updated
state and whether a new search was launched.  The early `return` on a
signature match precedes the staleness check, exactly as in the source. -/
def launchFindBestIfNeeded (st : OCRProcessor) (signature : String) (now : ℕ) :
    OCRProcessor × Bool :=
  match st.inFlightFind with
  | some f =>
    if f.signature = signature then (st, false)
    else
      let ageMs := now - f.startedAtMs
      if st.pathfinderTimeoutMs + 1000 < ageMs then
        ({ st with
           inFlightFind := some { signature := signature, startedAtMs := now }
           launchedAtLeastOnce := true }, true)
      else (st, false)
  | none =>
    ({ st with
       inFlightFind := some { signature := signature, startedAtMs := now }
       launchedAtLeastOnce := true }, true)

/-- The per-quality pruning table in `computeFindBest` (lines 409-415).
`maxCombinations` is `WithTop ℕ` with `⊤` for `Infinity`; thresholds are
rationals. -/
def qualitySettings : ℕ → Option (WithTop ℕ × ℚ)
  | 1 => some (100, 90 / 100)
  | 2 => some (200, 92 / 100)
  | 3 => some (400, 95 / 100)
  | 4 => some (800, 98 / 100)
  | 5 => some (⊤, 1)
  | _ => none

/-- The pruning options actually used by `computeFindBest`: the unbounded
pair when `forceOptimal` is set, otherwise
`qualitySettings[quality] ?? qualitySettings[5]`. -/
def pruningOptionsFor (forceOptimal : Bool) (pathfindingQuality : ℕ) : WithTop ℕ × ℚ :=
  if forceOptimal then (⊤, 1)
  else (qualitySettings pathfindingQuality).getD ((qualitySettings 5).getD (⊤, 1))

/-- The post-observation grace check: slot `idx` is inside its grace
window when `recentActiveAdds` holds an expiry strictly later than `now`
(`expiresAt && expiresAt > Date.now()`). -/
def inGraceWindow (recentActiveAdds : List (ℕ × ℕ)) (now : ℕ) (idx : ℕ) : Bool :=
  match recentActiveAdds.lookup idx with
  | some expiresAt => decide (now < expiresAt)
  | none => false

/-- The drop-indicator computation (lines 811-837 of
`src/unnamed/part_002`): group active slot indices by bounty, sort each
group ascending, take the first `count - allowed` indices when the held
count exceeds the count allowed by the accepted solution, and skip
indices still inside their grace window. -/
def computeActiveDrops (detectedActive : List (ℕ × String))
    (optimalBounties : List String) (grace : ℕ → Bool) : List ℕ :=
  ((detectedActive.map Prod.snd).dedup).flatMap (fun bounty =>
    let indices :=
      List.insertionSort (fun a b : ℕ => a ≤ b)
        ((detectedActive.filter (fun p => p.2 = bounty)).map Prod.fst)
    let allowed := (optimalBounties.filter (fun b => b = bounty)).length
    if allowed < indices.length then
      (indices.take (indices.length - allowed)).filter (fun idx => ¬ grace idx)
    else [])

/-- The drop indicators as assigned on a tick where an accepted solution
exists (lines 803-837): suppressed entirely while a recompute is in
flight or the board is closed. -/
def activeDropsOnTick (recomputeInFlight : Bool) (boardOpen : Bool)
    (detectedActive : List (ℕ × String)) (optimalBounties : List String)
    (grace : ℕ → Bool) : List ℕ :=
  if recomputeInFlight || !boardOpen then []
  else computeActiveDrops detectedActive optimalBounties grace

/-- Ordering of board slots by index, used to model iterating
`Object.keys(updatedBoard)` sorted ascending. -/
def leFst (p q : ℕ × String) : Prop := p.1 ≤ q.1

instance : DecidableRel leFst := fun p q => Nat.decLe p.1 q.1

instance : IsTotal (ℕ × String) leFst := ⟨fun p q => Nat.le_total p.1 q.1⟩

instance : IsTrans (ℕ × String) leFst := ⟨fun _ _ _ => Nat.le_trans⟩

/-- The pickup loop body (lines 995-1007 of `src/unnamed/part_002`):
walk board slots in ascending index order carrying the per-bounty count
of already-flagged pickups. -/
def pickupsLoop (optimalBounties activeVals : List String) :
    List (ℕ × String) → (String → ℕ) → List ℕ
  | [], _ => []
  | (idx, bounty) :: rest, pickupCount =>
    if bounty ∈ optimalBounties then
      let allowed := (optimalBounties.filter (fun b => b = bounty)).length
      let activeCount := (activeVals.filter (fun b => b = bounty)).length
      if activeCount + pickupCount bounty < allowed then
        idx :: pickupsLoop optimalBounties activeVals rest
          (fun b => if b = bounty then pickupCount bounty + 1 else pickupCount b)
      else pickupsLoop optimalBounties activeVals rest pickupCount
    else pickupsLoop optimalBounties activeVals rest pickupCount

/-- The pickup-indicator computation while the board is open (lines
991-1008): board slots in ascending index order, flagged while the
running active-plus-flagged count is below the accepted solution's
allowed count. -/
def computeBoardPickups (updatedBoard updatedActive : List (ℕ × String))
    (optimalBounties : List String) : List ℕ :=
  pickupsLoop optimalBounties (updatedActive.map Prod.snd)
    (List.insertionSort leFst updatedBoard) (fun _ => 0)

/-- The board-persistence update loop (lines 712-751 of
`src/unnamed/part_002`).  For each detected board slot: always accept the
detection when the slot was empty; otherwise overwrite only on an exact
match or when the detection agrees with the stored bounty.  `oldBounty`
is read from the board state as it was before the loop. -/
def updateBoardSlots (boardBounties detectedBoard : List (ℕ × String))
    (matchType : ℕ → MatchType) : List (ℕ × String) :=
  detectedBoard.foldl
    (fun updated p =>
      match lookupIdx boardBounties p.1 with
      | none => setIdx updated p.1 p.2
      | some oldBounty =>
        if matchType p.1 = MatchType.exact ∨ p.2 = oldBounty then
          setIdx updated p.1 p.2
        else updated)
    boardBounties

/-- The full `updatedBoard` computation: cleared when the board is closed;
otherwise the persistence loop, followed by clearing undetected slots when
the detected count dropped below the persisted count. -/
def updateBoard (boardOpen : Bool) (boardBounties detectedBoard : List (ℕ × String))
    (matchType : ℕ → MatchType) : List (ℕ × String) :=
  if !boardOpen then []
  else
    let updated := updateBoardSlots boardBounties detectedBoard matchType
    if detectedBoard.length < boardBounties.length then
      updated.filter (fun p => detectedBoard.any (fun q => q.1 = p.1))
    else updated

/-- `ComboTask` from `src/src/app/workers/pathfinder-utility.ts`. -/
structure ComboTask where
  combo : List String
  kp : ℚ
  estimatedEfficiency : ℚ
deriving DecidableEq, Repr

/-- `ComboResult` from `src/src/app/workers/pathfinder-utility.ts`. -/
structure ComboResult where
  combo : List String
  kp : ℚ
  actions : List Step
  distance : ℚ
deriving DecidableEq, Repr

/-- The observable behaviour of one worker dispatch: it may miss the
deadline, respond with an error, or respond with a result list. -/
inductive ShardOutcome where
  | timeout
  | procError (msg : String)
  | ok (results : List ComboResult)
deriving DecidableEq, Repr

/-- The errors `PathfinderUtilityPool.findBest` and `runOnProcess` can
raise, one constructor per thrown `Error` message. -/
inductive PoolError where
  | noCombinationsToEvaluate
  | processNotFound
  | processTimedOut
  | processError (msg : String)
  | noValidRoutesFound
deriving DecidableEq, Repr

/-- `runOnProcess` with `returnSingle = false`: a timeout or worker error
resolves with the empty list; a successful response resolves with its
result list. -/
def runOnProcessMulti : ShardOutcome → List ComboResult
  | .timeout => []
  | .procError _ => []
  | .ok results => results

/-- `runOnProcess` with `returnSingle = true`: a timeout or worker error
rejects (failing the whole search); a successful non-empty response
yields its best entry.  A successful empty response resolves the empty
array cast to `FindBestResult` in the source; that is modelled as
`.ok none`. -/
def runOnProcessSingle : ShardOutcome → Except PoolError (Option FindBestResult)
  | .timeout => .error .processTimedOut
  | .procError msg => .error (.processError msg)
  | .ok (best :: _) =>
    .ok (some { bounties := best.combo, kp := best.kp,
                actions := best.actions, distance := best.distance })
  | .ok [] => .ok none

/-- Descending actual-efficiency order used to merge shard results
(`allResults.sort((a, b) => b.kp / b.distance - a.kp / a.distance)`). -/
def effDesc (a b : ComboResult) : Prop := b.kp / b.distance ≤ a.kp / a.distance

instance : DecidableRel effDesc := fun _ _ => Rat.instDecidableLe _ _

/-- Round-robin distribution of tasks over `n` chunks
(`chunks[i % numProcesses].push(tasksToProcess[i])`). -/
def roundRobin (tasks : List ComboTask) (n : ℕ) : List (List ComboTask) :=
  tasks.enum.foldl
    (fun chunks it => chunks.set (it.1 % n) (chunks.getD (it.1 % n) [] ++ [it.2]))
    (List.replicate n [])

/-- The dispatch phase of `PathfinderUtilityPool.findBest` (lines 146-199
of `pathfinder-utility.ts`) on the already ranked and truncated task list
`tasksToProcess`.  Worker behaviour is abstracted by `outcome`, the
response of shard `i` to its chunk.  At most 20 surviving tasks run as a
single synchronous dispatch of the whole list; otherwise tasks are split
round-robin over `min(maxProcesses, ceil(count / 10))` shards, shard
results are flattened, sorted by actual efficiency and the global best is
returned, with an empty merge raising `noValidRoutesFound`. -/
def findBestDispatch (maxProcesses : ℕ) (tasksToProcess : List ComboTask)
    (outcome : ℕ → List ComboTask → ShardOutcome) :
    Except PoolError (Option FindBestResult) :=
  if tasksToProcess.length = 0 then .error .noCombinationsToEvaluate
  else if tasksToProcess.length ≤ 20 then
    runOnProcessSingle (outcome 0 tasksToProcess)
  else
    let numProcesses := min maxProcesses ((tasksToProcess.length + 9) / 10)
    let chunks := roundRobin tasksToProcess numProcesses
    let allResults :=
      (chunks.enum.map (fun c => runOnProcessMulti (outcome c.1 c.2))).flatten
    if allResults.length = 0 then .error .noValidRoutesFound
    else
      match List.insertionSort effDesc allResults with
      | best :: _ =>
        .ok (some { bounties := best.combo, kp := best.kp,
                    actions := best.actions, distance := best.distance })
      | [] => .error .noValidRoutesFound

/-- The accepted-solution portion of the scheduler state named by the
failure-transparency property: accepted solution (bounties, kp, distance),
steps, step cursor and display values. -/
def acceptedView (st : OCRProcessor) :
    List String × ℚ × Option ℚ × List Step × ℕ × List Step × ℚ × Option ℚ :=
  (st.prevOptimalBounties, st.kp, st.distanceSeconds, st.steps, st.stepIdx,
   st.displaySteps, st.displayKp, st.displayDistanceSeconds)

/-- A concrete scheduler state used to instantiate theorems: the state of
a freshly constructed `OCRProcessor` with the default 20000 ms pathfinder
deadline. -/
def initialProcessor : OCRProcessor where
  activeBounties := []
  boardBounties := []
  prevOptimalBounties := []
  kp := 0
  distanceSeconds := none
  steps := []
  stepIdx := 0
  displaySteps := []
  displayKp := 0
  displayDistanceSeconds := none
  runCompleted := false
  inFlightFind := none
  launchedAtLeastOnce := false
  prevAllBountiesSignature := ""
  forceOptimal := false
  pathfinderTimeoutMs := 20000

/-- C2: a trigger whose bounty-multiset signature equals the signature of
the current in-flight search is ignored: no new search is launched and the
scheduler state, in-flight record included, is unchanged.  Feeding an
identical observation snapshot twice computes the same signature, so a
second identical snapshot issues no second search while the first is in
flight. -/
theorem identicalSignatureTriggerIgnored (st : OCRProcessor) (f : InFlightFind)
    (signature : String) (now : ℕ) (hf : st.inFlightFind = some f)
    (hsig : f.signature = signature) :
    launchFindBestIfNeeded st signature now = (st, false) := by
  unfold launchFindBestIfNeeded
  rw [hf]
  simp [hsig]

/-- Witness for `identicalSignatureTriggerIgnored` at a concrete state. -/
theorem identicalSignatureTriggerIgnored_witness :
    ({ initialProcessor with
       inFlightFind := some { signature := "a|b", startedAtMs := 5 } } : OCRProcessor).inFlightFind
        = some { signature := "a|b", startedAtMs := 5 } ∧
    launchFindBestIfNeeded
      { initialProcessor with
        inFlightFind := some { signature := "a|b", startedAtMs := 5 } } "a|b" 600 =
      ({ initialProcessor with
         inFlightFind := some { signature := "a|b", startedAtMs := 5 } }, false) :=
  ⟨rfl, identicalSignatureTriggerIgnored _ _ _ 600 rfl rfl⟩

/-- C3 counterexample: a stale in-flight search (age beyond the deadline
plus 1000 ms) whose signature equals the trigger's is NOT discarded and no
new search is launched — the dedup check precedes the staleness check, so
staleness does not unblock retriggering "regardless of the new trigger's
signature". -/
theorem staleSameSignatureNotRetriggered :
    (20000 + 1000 < 30000 - 0) ∧
    launchFindBestIfNeeded
      { initialProcessor with
        inFlightFind := some { signature := "a|b", startedAtMs := 0 } } "a|b" 30000 =
      ({ initialProcessor with
         inFlightFind := some { signature := "a|b", startedAtMs := 0 } }, false) := by
  exact ⟨by decide, rfl⟩

/-- C3 (amended): a trigger arriving while the in-flight search is older
than the pathfinder deadline plus 1000 ms discards the stale record and
launches a new search, provided the trigger's signature differs from the
stale search's; the replacement in-flight record carries the trigger's
signature. -/
theorem staleInFlightDiscardedOnNewSignature (st : OCRProcessor) (f : InFlightFind)
    (signature : String) (now : ℕ) (hf : st.inFlightFind = some f)
    (hne : f.signature ≠ signature)
    (hstale : st.pathfinderTimeoutMs + 1000 < now - f.startedAtMs) :
    launchFindBestIfNeeded st signature now =
      ({ st with
         inFlightFind := some { signature := signature, startedAtMs := now }
         launchedAtLeastOnce := true }, true) := by
  unfold launchFindBestIfNeeded
  rw [hf]
  simp [hne, hstale]

/-- Witness for `staleInFlightDiscardedOnNewSignature` at a concrete
state. -/
theorem staleInFlightDiscardedOnNewSignature_witness :
    (({ initialProcessor with
        inFlightFind := some { signature := "a|b", startedAtMs := 0 } } : OCRProcessor).inFlightFind
       = some { signature := "a|b", startedAtMs := 0 } ∧
     ("a|b" : String) ≠ "c" ∧
     (20000 : ℕ) + 1000 < 30000 - 0) ∧
    launchFindBestIfNeeded
      { initialProcessor with
        inFlightFind := some { signature := "a|b", startedAtMs := 0 } } "c" 30000 =
      ({ initialProcessor with
         inFlightFind := some { signature := "c", startedAtMs := 30000 }
         launchedAtLeastOnce := true }, true) :=
  ⟨⟨rfl, by decide, by decide⟩,
   staleInFlightDiscardedOnNewSignature _ _ _ _ rfl (by decide) (by decide)⟩

/-- C7: across quality levels 1..5 both `maxCombinations`
(100, 200, 400, 800, unbounded) and `pruningThreshold`
(0.90, 0.92, 0.95, 0.98, 1.0) are strictly increasing, and the
forced-optimal path uses the unbounded/1.0 pair at every configured
quality. -/
theorem qualityTruncationMonotone (q1 q2 : ℕ) (h1 : 1 ≤ q1) (h2 : q1 < q2) (h3 : q2 ≤ 5) :
    ((pruningOptionsFor false q1).1 < (pruningOptionsFor false q2).1 ∧
     (pruningOptionsFor false q1).2 < (pruningOptionsFor false q2).2) ∧
    ∀ quality : ℕ, pruningOptionsFor true quality = (⊤, 1) := by
  refine ⟨?_, fun quality => rfl⟩
  have h4 : q1 ≤ 4 := by omega
  interval_cases q1 <;> interval_cases q2 <;>
    exact ⟨by decide, by norm_num [pruningOptionsFor, qualitySettings]⟩

/-- Witness for `qualityTruncationMonotone` at quality levels 1 and 2. -/
theorem qualityTruncationMonotone_witness :
    ((1 : ℕ) ≤ 1 ∧ (1 : ℕ) < 2 ∧ (2 : ℕ) ≤ 5) ∧
    (((pruningOptionsFor false 1).1 < (pruningOptionsFor false 2).1 ∧
      (pruningOptionsFor false 1).2 < (pruningOptionsFor false 2).2) ∧
     ∀ quality : ℕ, pruningOptionsFor true quality = (⊤, 1)) :=
  ⟨by decide, qualityTruncationMonotone 1 2 (by decide) (by decide) (by decide)⟩

/-- C9: when the underlying computation of a search throws, the accepted
solution (bounties, kp, distance), steps, step cursor and display values
are all unchanged and the force-optimal flag ends up cleared; when it
succeeds the force-optimal flag is cleared as well. -/
theorem acceptedView_clearInFlightIfSig (st : OCRProcessor) (signature : String) :
    acceptedView (clearInFlightIfSig st signature) = acceptedView st := by
  unfold clearInFlightIfSig
  rcases h : st.inFlightFind with _ | f <;> simp only <;> split <;> rfl

theorem forceOptimal_clearInFlightIfSig (st : OCRProcessor) (signature : String) :
    (clearInFlightIfSig st signature).forceOptimal = st.forceOptimal := by
  unfold clearInFlightIfSig
  rcases h : st.inFlightFind with _ | f <;> simp only <;> split <;> rfl

theorem forceOptimal_applyFindBestSuccess (st : OCRProcessor) (r : FindBestResult)
    (signature : String) :
    (applyFindBestSuccess st r signature).forceOptimal = st.forceOptimal := by
  unfold applyFindBestSuccess
  dsimp only
  split_ifs <;> rfl

/-- C9: when the underlying computation of a search throws, the accepted
solution (bounties, kp, distance), steps, step cursor and display values
are all unchanged and the force-optimal flag ends up cleared; when it
succeeds the force-optimal flag is cleared as well. -/
theorem searchFailureLeavesStateUntouched (st : OCRProcessor) (signature : String)
    (e : Unit) (r : FindBestResult) :
    (acceptedView (completeFind st signature (.error e)) = acceptedView st ∧
     (completeFind st signature (.error e)).forceOptimal = false) ∧
    (completeFind st signature (.ok r)).forceOptimal = false := by
  refine ⟨⟨?_, ?_⟩, ?_⟩
  · rw [completeFind, acceptedView_clearInFlightIfSig]
    rfl
  · rw [completeFind, forceOptimal_clearInFlightIfSig]
  · rw [completeFind, forceOptimal_clearInFlightIfSig, forceOptimal_applyFindBestSuccess]
    split <;> simp_all

theorem currentEfficiency_le_applyFindBestSuccess (st : OCRProcessor) (r : FindBestResult)
    (signature : String) (hd : 0 < r.distance) (hk : 0 ≤ r.kp) (hb : r.bounties ≠ []) :
    currentEfficiency st ≤ currentEfficiency (applyFindBestSuccess st r signature) := by
  unfold applyFindBestSuccess
  dsimp only
  by_cases h : currentEfficiency st = 0 ∨ r.kp / r.distance > currentEfficiency st
  · rw [if_pos h]
    have hres : currentEfficiency
        { st with
          prevOptimalBounties := r.bounties
          kp := r.kp
          distanceSeconds := some r.distance
          displayKp := if st.runCompleted then st.displayKp else r.kp
          displayDistanceSeconds :=
            if st.runCompleted then st.displayDistanceSeconds else some r.distance
          steps := if 0 < st.stepIdx ∧ r.actions ≠ [] then
              filterRedundantBuys (st.activeBounties.map Prod.snd) r.actions
            else r.actions
          stepIdx := if 0 < st.stepIdx ∧ r.actions ≠ [] then 0 else st.stepIdx
          displaySteps := if st.runCompleted then st.displaySteps
            else if 0 < st.stepIdx ∧ r.actions ≠ [] then
              filterRedundantBuys (st.activeBounties.map Prod.snd) r.actions
            else r.actions
          prevAllBountiesSignature := signature } = r.kp / r.distance := by
      unfold currentEfficiency distPos
      simp [hb, hd]
    rw [hres]
    rcases h with h0 | hlt
    · rw [h0]
      exact div_nonneg hk hd.le
    · exact le_of_lt hlt
  · rw [if_neg h]
    exact le_of_eq rfl

/-- C1: the accepted solution is replaced by a completed result R exactly
when the current accepted efficiency is 0 or R's efficiency is strictly
greater; otherwise the accepted-solution state is untouched.  Consequently
the accepted efficiency never decreases across a single acceptance or any
sequence of acceptance decisions, and a result of equal (non-zero)
efficiency never replaces the incumbent. -/
theorem strictImprovementAcceptance (st : OCRProcessor) (r : FindBestResult)
    (signature : String) (rs : List (FindBestResult × String))
    (hd : 0 < r.distance) (hk : 0 ≤ r.kp) (hb : r.bounties ≠ [])
    (hrs : ∀ p ∈ rs, 0 < p.1.distance ∧ 0 ≤ p.1.kp ∧ p.1.bounties ≠ []) :
    ((currentEfficiency st = 0 ∨ r.kp / r.distance > currentEfficiency st) →
       (applyFindBestSuccess st r signature).prevOptimalBounties = r.bounties ∧
       (applyFindBestSuccess st r signature).kp = r.kp ∧
       (applyFindBestSuccess st r signature).distanceSeconds = some r.distance) ∧
    (¬(currentEfficiency st = 0 ∨ r.kp / r.distance > currentEfficiency st) →
       acceptedView (applyFindBestSuccess st r signature) = acceptedView st) ∧
    currentEfficiency st ≤ currentEfficiency (applyFindBestSuccess st r signature) ∧
    currentEfficiency st ≤
      currentEfficiency
        (rs.foldl (fun s p => applyFindBestSuccess s p.1 p.2) st) := by
  refine ⟨?_, ?_, currentEfficiency_le_applyFindBestSuccess st r signature hd hk hb, ?_⟩
  · intro h
    unfold applyFindBestSuccess
    dsimp only
    rw [if_pos h]
    exact ⟨rfl, rfl, rfl⟩
  · intro h
    unfold applyFindBestSuccess
    dsimp only
    rw [if_neg h]
    rfl
  · induction rs generalizing st with
    | nil => exact le_of_eq rfl
    | cons p rest ih =>
      rw [List.foldl_cons]
      refine le_trans ?_ (ih (applyFindBestSuccess st p.1 p.2)
        (fun q hq => hrs q (List.mem_cons_of_mem p hq)))
      obtain ⟨hd1, hk1, hb1⟩ := hrs p (List.mem_cons_self p rest)
      exact currentEfficiency_le_applyFindBestSuccess st p.1 p.2 hd1 hk1 hb1

/-- Witness for `strictImprovementAcceptance` on a concrete state and
result. -/
theorem strictImprovementAcceptance_witness :
    ((0 : ℚ) < 5 ∧ (0 : ℚ) ≤ 10 ∧ (["A"] : List String) ≠ [] ∧
     (∀ p ∈ ([({ bounties := ["B"], kp := 12, actions := [], distance := 4 },
               "B")] : List (FindBestResult × String)),
        0 < p.1.distance ∧ 0 ≤ p.1.kp ∧ p.1.bounties ≠ [])) ∧
    (((currentEfficiency initialProcessor = 0 ∨
        (10 : ℚ) / 5 > currentEfficiency initialProcessor) →
       (applyFindBestSuccess initialProcessor
          { bounties := ["A"], kp := 10, actions := [], distance := 5 }
          "A").prevOptimalBounties = ["A"] ∧
       (applyFindBestSuccess initialProcessor
          { bounties := ["A"], kp := 10, actions := [], distance := 5 } "A").kp = 10 ∧
       (applyFindBestSuccess initialProcessor
          { bounties := ["A"], kp := 10, actions := [], distance := 5 }
          "A").distanceSeconds = some 5) ∧
     (¬(currentEfficiency initialProcessor = 0 ∨
         (10 : ℚ) / 5 > currentEfficiency initialProcessor) →
       acceptedView (applyFindBestSuccess initialProcessor
         { bounties := ["A"], kp := 10, actions := [], distance := 5 } "A") =
         acceptedView initialProcessor) ∧
     currentEfficiency initialProcessor ≤
       currentEfficiency (applyFindBestSuccess initialProcessor
         { bounties := ["A"], kp := 10, actions := [], distance := 5 } "A") ∧
     currentEfficiency initialProcessor ≤
       currentEfficiency
         (([({ bounties := ["B"], kp := 12, actions := [], distance := 4 },
             "B")] : List (FindBestResult × String)).foldl
           (fun s p => applyFindBestSuccess s p.1 p.2) initialProcessor)) := by
  refine ⟨⟨by decide, by decide, by decide, ?_⟩, ?_⟩
  · intro p hp
    simp only [List.mem_singleton] at hp
    subst hp
    refine ⟨by decide, by decide, by decide⟩
  · exact strictImprovementAcceptance initialProcessor
      { bounties := ["A"], kp := 10, actions := [], distance := 5 } "A"
      [({ bounties := ["B"], kp := 12, actions := [], distance := 4 }, "B")]
      (by decide) (by decide) (by decide)
      (by
        intro p hp
        simp only [List.mem_singleton] at hp
        subst hp
        exact ⟨by decide, by decide, by decide⟩)

theorem lookupIdx_map_overwrite_self (l : List (ℕ × String)) (i : ℕ) (v : String)
    (h : l.any (fun p => p.1 = i)) :
    lookupIdx (l.map (fun p => if p.1 = i then (i, v) else p)) i = some v := by
  induction l with
  | nil => simp at h
  | cons a t ih =>
    obtain ⟨a1, a2⟩ := a
    simp only [List.map_cons]
    by_cases ha : a1 = i
    · have : (if (a1, a2).1 = i then (i, v) else (a1, a2)) = (i, v) := if_pos ha
      rw [this]
      simp [lookupIdx]
    · have : (if (a1, a2).1 = i then (i, v) else (a1, a2)) = (a1, a2) := if_neg ha
      rw [this]
      have ht : t.any (fun p => p.1 = i) := by
        simp only [List.any_cons, Bool.or_eq_true] at h
        rcases h with h1 | h2
        · exact absurd (by simpa using h1) ha
        · exact h2
      simp only [lookupIdx, if_neg ha]
      exact ih ht

theorem lookupIdx_append_single_self (l : List (ℕ × String)) (i : ℕ) (v : String)
    (h : l.any (fun p => p.1 = i) = false) :
    lookupIdx (l ++ [(i, v)]) i = some v := by
  induction l with
  | nil => simp [lookupIdx]
  | cons a t ih =>
    obtain ⟨a1, a2⟩ := a
    simp only [List.any_cons, Bool.or_eq_false_iff] at h
    have ha : ¬ a1 = i := by simpa using h.1
    simp only [List.cons_append, lookupIdx, if_neg ha]
    exact ih h.2

theorem lookupIdx_setIdx_self (l : List (ℕ × String)) (i : ℕ) (v : String) :
    lookupIdx (setIdx l i v) i = some v := by
  unfold setIdx
  by_cases h : l.any (fun p => p.1 = i)
  · rw [if_pos h]
    exact lookupIdx_map_overwrite_self l i v h
  · rw [if_neg h]
    exact lookupIdx_append_single_self l i v (Bool.eq_false_iff.mpr h)

theorem lookupIdx_map_overwrite_ne (l : List (ℕ × String)) (i j : ℕ) (v : String)
    (hij : j ≠ i) :
    lookupIdx (l.map (fun p => if p.1 = i then (i, v) else p)) j = lookupIdx l j := by
  induction l with
  | nil => rfl
  | cons a t ih =>
    obtain ⟨a1, a2⟩ := a
    simp only [List.map_cons]
    by_cases ha : a1 = i
    · have h1 : (if (a1, a2).1 = i then (i, v) else (a1, a2)) = (i, v) := if_pos ha
      rw [h1]
      have h2 : ¬ i = j := fun hc => hij hc.symm
      have h3 : ¬ a1 = j := by
        rw [ha]
        exact h2
      simp only [lookupIdx, if_neg h2, if_neg h3]
      exact ih
    · have h1 : (if (a1, a2).1 = i then (i, v) else (a1, a2)) = (a1, a2) := if_neg ha
      rw [h1]
      simp only [lookupIdx]
      by_cases haj : a1 = j
      · simp [haj]
      · simp only [if_neg haj]
        exact ih

theorem lookupIdx_append_single_ne (l : List (ℕ × String)) (i j : ℕ) (v : String)
    (hij : j ≠ i) : lookupIdx (l ++ [(i, v)]) j = lookupIdx l j := by
  induction l with
  | nil =>
    have h2 : ¬ i = j := fun hc => hij hc.symm
    simp [lookupIdx, h2]
  | cons a t ih =>
    obtain ⟨a1, a2⟩ := a
    simp only [List.cons_append, lookupIdx]
    by_cases haj : a1 = j
    · simp [haj]
    · simp only [if_neg haj]
      exact ih

theorem lookupIdx_setIdx_ne (l : List (ℕ × String)) (i j : ℕ) (v : String)
    (hij : j ≠ i) : lookupIdx (setIdx l i v) j = lookupIdx l j := by
  unfold setIdx
  by_cases h : l.any (fun p => p.1 = i)
  · rw [if_pos h]
    exact lookupIdx_map_overwrite_ne l i j v hij
  · rw [if_neg h]
    exact lookupIdx_append_single_ne l i j v hij

theorem lookupIdx_updateBoardSlots_foldl_notMem (board : List (ℕ × String))
    (mt : ℕ → MatchType) (det : List (ℕ × String)) (acc : List (ℕ × String)) (idx : ℕ)
    (hidx : ∀ p ∈ det, p.1 ≠ idx) :
    lookupIdx
      (det.foldl
        (fun updated p =>
          match lookupIdx board p.1 with
          | none => setIdx updated p.1 p.2
          | some oldBounty =>
            if mt p.1 = MatchType.exact ∨ p.2 = oldBounty then setIdx updated p.1 p.2
            else updated)
        acc) idx = lookupIdx acc idx := by
  induction det generalizing acc with
  | nil => rfl
  | cons p rest ih =>
    rw [List.foldl_cons]
    have hp : p.1 ≠ idx := hidx p (List.mem_cons_self p rest)
    have hrest : ∀ q ∈ rest, q.1 ≠ idx := fun q hq => hidx q (List.mem_cons_of_mem p hq)
    rw [ih _ hrest]
    rcases hlook : lookupIdx board p.1 with _ | o <;> simp only [hlook]
    · exact lookupIdx_setIdx_ne acc p.1 idx p.2 (fun hc => hp hc.symm)
    · split
      · exact lookupIdx_setIdx_ne acc p.1 idx p.2 (fun hc => hp hc.symm)
      · rfl

theorem lookupIdx_updateBoardSlots_aux (board : List (ℕ × String)) (mt : ℕ → MatchType)
    (det : List (ℕ × String)) (acc : List (ℕ × String)) (idx : ℕ) (b : String)
    (hnd : (det.map Prod.fst).Nodup) (hmem : (idx, b) ∈ det)
    (hacc : lookupIdx acc idx = lookupIdx board idx) :
    lookupIdx
      (det.foldl
        (fun updated p =>
          match lookupIdx board p.1 with
          | none => setIdx updated p.1 p.2
          | some oldBounty =>
            if mt p.1 = MatchType.exact ∨ p.2 = oldBounty then setIdx updated p.1 p.2
            else updated)
        acc) idx =
      match lookupIdx board idx with
      | none => some b
      | some o => if mt idx = MatchType.exact ∨ b = o then some b
                  else lookupIdx board idx := by
  induction det generalizing acc with
  | nil => exact absurd hmem (List.not_mem_nil _)
  | cons p rest ih =>
    rw [List.map_cons, List.nodup_cons] at hnd
    rw [List.foldl_cons]
    rcases List.mem_cons.mp hmem with heq | hrest
    · subst heq
      have hrestne : ∀ q ∈ rest, q.1 ≠ idx := by
        intro q hq hc
        have hin : idx ∈ rest.map Prod.fst := by
          rw [← hc]
          exact List.mem_map_of_mem Prod.fst hq
        exact hnd.1 hin
      rw [lookupIdx_updateBoardSlots_foldl_notMem board mt rest _ idx hrestne]
      rcases hlook : lookupIdx board idx with _ | o <;> simp only [hlook]
      · exact lookupIdx_setIdx_self acc idx b
      · split
        · exact lookupIdx_setIdx_self acc idx b
        · rw [hacc, hlook]
    · have hpne : p.1 ≠ idx := by
        intro hc
        have hin : p.1 ∈ rest.map Prod.fst := by
          rw [hc]
          exact List.mem_map_of_mem Prod.fst hrest
        exact hnd.1 hin
      have hstep : lookupIdx
          (match lookupIdx board p.1 with
           | none => setIdx acc p.1 p.2
           | some oldBounty =>
             if mt p.1 = MatchType.exact ∨ p.2 = oldBounty then setIdx acc p.1 p.2
             else acc) idx = lookupIdx board idx := by
        rcases hlook : lookupIdx board p.1 with _ | o <;> simp only [hlook]
        · rw [lookupIdx_setIdx_ne acc p.1 idx p.2 (fun hc => hpne hc.symm)]
          exact hacc
        · split
          · rw [lookupIdx_setIdx_ne acc p.1 idx p.2 (fun hc => hpne hc.symm)]
            exact hacc
          · exact hacc
      exact ih _ hnd.2 hrest hstep

theorem lookupIdx_updateBoardSlots (board det : List (ℕ × String)) (mt : ℕ → MatchType)
    (hnd : (det.map Prod.fst).Nodup) (idx : ℕ) (b : String) (hmem : (idx, b) ∈ det) :
    lookupIdx (updateBoardSlots board det mt) idx =
      match lookupIdx board idx with
      | none => some b
      | some o => if mt idx = MatchType.exact ∨ b = o then some b
                  else lookupIdx board idx :=
  lookupIdx_updateBoardSlots_aux board mt det board idx b hnd hmem rfl

theorem lookupIdx_filter_detected (l det : List (ℕ × String)) (idx : ℕ)
    (hidx : det.any (fun q => q.1 = idx)) :
    lookupIdx (l.filter (fun p => det.any (fun q => q.1 = p.1))) idx = lookupIdx l idx := by
  induction l with
  | nil => rfl
  | cons a t ih =>
    obtain ⟨a1, a2⟩ := a
    by_cases hkeep : det.any (fun q => q.1 = (a1, a2).1)
    · simp only [List.filter_cons, hkeep, if_true, lookupIdx]
      split
      · rfl
      · exact ih
    · have ha1 : ¬ a1 = idx := by
        intro hc
        exact hkeep (by simpa [hc] using hidx)
      simp only [List.filter_cons, hkeep, if_false, Bool.false_eq_true]
      simp only [lookupIdx, if_neg ha1] at ih ⊢
      exact ih

theorem lookupIdx_updateBoard (board det : List (ℕ × String)) (mt : ℕ → MatchType)
    (hnd : (det.map Prod.fst).Nodup) (idx : ℕ) (b : String) (hmem : (idx, b) ∈ det) :
    lookupIdx (updateBoard true board det mt) idx =
      match lookupIdx board idx with
      | none => some b
      | some o => if mt idx = MatchType.exact ∨ b = o then some b
                  else lookupIdx board idx := by
  unfold updateBoard
  simp only [Bool.not_true, Bool.false_eq_true, if_false]
  have hany : det.any (fun q => q.1 = idx) := by
    simp only [List.any_eq_true]
    exact ⟨(idx, b), hmem, by simp⟩
  split
  · rw [lookupIdx_filter_detected _ det idx hany]
    exact lookupIdx_updateBoardSlots board det mt hnd idx b hmem
  · exact lookupIdx_updateBoardSlots board det mt hnd idx b hmem

/-- C10: while the board is open, a detected board slot that previously
held a bounty is overwritten by a different bounty only when the detection
is an exact match; a fuzzy detection that disagrees with the stored bounty
leaves the slot unchanged; agreeing detections and detections into
previously empty slots are always stored. -/
theorem fuzzyBoardDetectionNeverOverwrites (board det : List (ℕ × String))
    (mt : ℕ → MatchType) (hnd : (det.map Prod.fst).Nodup) (idx : ℕ) (b : String)
    (hmem : (idx, b) ∈ det) :
    (lookupIdx board idx = none →
       lookupIdx (updateBoard true board det mt) idx = some b) ∧
    (∀ o, lookupIdx board idx = some o → mt idx = MatchType.exact →
       lookupIdx (updateBoard true board det mt) idx = some b) ∧
    (∀ o, lookupIdx board idx = some o → b = o →
       lookupIdx (updateBoard true board det mt) idx = some b) ∧
    (∀ o, lookupIdx board idx = some o → mt idx ≠ MatchType.exact → b ≠ o →
       lookupIdx (updateBoard true board det mt) idx = some o) := by
  have hmain := lookupIdx_updateBoard board det mt hnd idx b hmem
  refine ⟨?_, ?_, ?_, ?_⟩
  · intro hnone
    rw [hmain, hnone]
  · intro o ho hex
    rw [hmain, ho]
    simp [hex]
  · intro o ho hbo
    rw [hmain, ho]
    simp [hbo]
  · intro o ho hex hbo
    have hcond : ¬ (mt idx = MatchType.exact ∨ b = o) := by
      intro hc
      cases hc with
      | inl h => exact hex h
      | inr h => exact hbo h
    rw [hmain, ho]
    simp [hcond]

/-- Witness for `fuzzyBoardDetectionNeverOverwrites`: slot 0 holds "X", a
fuzzy detection "Z" disagrees and the stored bounty survives. -/
theorem fuzzyBoardDetectionNeverOverwrites_witness :
    ((([(0, "Z"), (2, "W")] : List (ℕ × String)).map Prod.fst).Nodup ∧
     ((0 : ℕ), ("Z" : String)) ∈ ([(0, "Z"), (2, "W")] : List (ℕ × String))) ∧
    ((lookupIdx [(0, "X")] 0 = none →
       lookupIdx (updateBoard true [(0, "X")] [(0, "Z"), (2, "W")]
         (fun _ => MatchType.fuzzy)) 0 = some "Z") ∧
     (∀ o, lookupIdx [(0, "X")] 0 = some o → (fun _ : ℕ => MatchType.fuzzy) 0 = MatchType.exact →
       lookupIdx (updateBoard true [(0, "X")] [(0, "Z"), (2, "W")]
         (fun _ => MatchType.fuzzy)) 0 = some "Z") ∧
     (∀ o, lookupIdx [(0, "X")] 0 = some o → ("Z" : String) = o →
       lookupIdx (updateBoard true [(0, "X")] [(0, "Z"), (2, "W")]
         (fun _ => MatchType.fuzzy)) 0 = some "Z") ∧
     (∀ o, lookupIdx [(0, "X")] 0 = some o → (fun _ : ℕ => MatchType.fuzzy) 0 ≠ MatchType.exact →
       ("Z" : String) ≠ o →
       lookupIdx (updateBoard true [(0, "X")] [(0, "Z"), (2, "W")]
         (fun _ => MatchType.fuzzy)) 0 = some o)) :=
  ⟨⟨by decide, by decide⟩,
   fuzzyBoardDetectionNeverOverwrites [(0, "X")] [(0, "Z"), (2, "W")]
     (fun _ => MatchType.fuzzy) (by decide) 0 "Z" (by decide)⟩

theorem filter_le_eq_filter_lt_of_not_mem (t : List ℕ) (x : ℕ) (hx : x ∉ t) :
    t.filter (fun y => y ≤ x) = t.filter (fun y => y < x) := by
  apply List.filter_congr
  intro y hy
  have hyx : y ≠ x := fun hc => hx (hc ▸ hy)
  simp only [decide_eq_decide]
  exact ⟨fun h => lt_of_le_of_ne h hyx, fun h => le_of_lt h⟩

theorem length_filter_le_of_mem (l : List ℕ) (x : ℕ) (hnd : l.Nodup) (hx : x ∈ l) :
    (l.filter (fun y => y ≤ x)).length = (l.filter (fun y => y < x)).length + 1 := by
  induction l with
  | nil => exact absurd hx (List.not_mem_nil x)
  | cons a t ih =>
    rw [List.nodup_cons] at hnd
    rcases List.mem_cons.mp hx with hax | hxt
    · subst hax
      have h2 := filter_le_eq_filter_lt_of_not_mem t x hnd.1
      simp [List.filter_cons, le_refl, lt_irrefl, h2]
    · have hax : a ≠ x := fun hc => hnd.1 (hc ▸ hxt)
      by_cases hlt : a < x
      · have hle : a ≤ x := le_of_lt hlt
        simp only [List.filter_cons]
        simp [hle, hlt, ih hnd.2 hxt]
      · have hle : ¬ a ≤ x := fun hc => hlt (lt_of_le_of_ne hc hax)
        simp only [List.filter_cons]
        simp [hle, hlt, ih hnd.2 hxt]

theorem mem_take_of_sorted_lt (l : List ℕ) (hs : l.Pairwise (fun a b => a < b)) (x : ℕ)
    (hx : x ∈ l) (k : ℕ) :
    (x ∈ l.take k ↔ (l.filter (fun y => y < x)).length < k) := by
  induction l generalizing k with
  | nil => exact absurd hx (List.not_mem_nil x)
  | cons a t ih =>
    rw [List.pairwise_cons] at hs
    cases k with
    | zero => simp
    | succ k =>
      rw [List.take_succ_cons]
      rcases List.mem_cons.mp hx with hax | hxt
      · subst hax
        have h2 : t.filter (fun y => y < x) = [] := by
          rw [List.filter_eq_nil_iff]
          intro y hy
          simp only [decide_eq_true_eq]
          exact fun hc => absurd (hs.1 y hy) (not_lt_of_lt hc)
        simp [List.filter_cons, lt_irrefl, h2]
      · have hax : a < x := hs.1 x hxt
        have hmem : x ∈ a :: List.take k t ↔ x ∈ List.take k t := by
          constructor
          · intro h
            rcases List.mem_cons.mp h with h1 | h1
            · exact absurd h1.symm (ne_of_lt hax)
            · exact h1
          · exact fun h => List.mem_cons_of_mem a h
        rw [hmem, ih hs.2 hxt k]
        simp only [List.filter_cons]
        simp [hax]

theorem keyUnique (l : List (ℕ × String)) (hnd : (l.map Prod.fst).Nodup) (i : ℕ)
    (b c : String) (hb : (i, b) ∈ l) (hc : (i, c) ∈ l) : b = c := by
  induction l with
  | nil => exact absurd hb (List.not_mem_nil _)
  | cons a t ih =>
    rw [List.map_cons, List.nodup_cons] at hnd
    rcases List.mem_cons.mp hb with hb1 | hb1 <;> rcases List.mem_cons.mp hc with hc1 | hc1
    · have h := hb1.trans hc1.symm
      exact (Prod.ext_iff.mp h).2
    · exfalso
      apply hnd.1
      have hi : i ∈ t.map Prod.fst := List.mem_map_of_mem Prod.fst hc1
      have ha1 : a.1 = i := by rw [← hb1]
      exact ha1.symm ▸ hi
    · exfalso
      apply hnd.1
      have hi : i ∈ t.map Prod.fst := List.mem_map_of_mem Prod.fst hb1
      have ha1 : a.1 = i := by rw [← hc1]
      exact ha1.symm ▸ hi
    · exact ih hnd.2 hb1 hc1

/-- C4: on a tick with an accepted solution, drop indicators are empty
whenever a search is in flight or the board is closed; otherwise a held
slot `(idx, b)` is flagged exactly when it is outside its grace window and
it lies among the lowest-index excess slots of its bounty — equivalently,
the allowed count plus the number of same-bounty slots at or below `idx`
does not exceed the held count. -/
theorem dropIndicatorsCharacterization (recomputeInFlight boardOpen : Bool)
    (detectedActive : List (ℕ × String)) (optimalBounties : List String)
    (grace : ℕ → Bool) (hnd : (detectedActive.map Prod.fst).Nodup) (idx : ℕ)
    (b : String) (hmem : (idx, b) ∈ detectedActive) :
    (recomputeInFlight = true ∨ boardOpen = false →
       activeDropsOnTick recomputeInFlight boardOpen detectedActive optimalBounties
         grace = []) ∧
    (idx ∈ activeDropsOnTick false true detectedActive optimalBounties grace ↔
       (grace idx = false ∧
        (optimalBounties.filter (fun x => x = b)).length +
          (((detectedActive.filter (fun p => p.2 = b)).map Prod.fst).filter
            (fun j => j ≤ idx)).length ≤
          ((detectedActive.filter (fun p => p.2 = b)).map Prod.fst).length)) := by
  have hslots : ∀ b' : String, ∀ j : ℕ,
      j ∈ (detectedActive.filter (fun p => p.2 = b')).map Prod.fst →
      (j, b') ∈ detectedActive := by
    intro b' j hj
    obtain ⟨p, hp, hpj⟩ := List.mem_map.mp hj
    obtain ⟨hpdet, hpb⟩ := List.mem_filter.mp hp
    have hpb' : p.2 = b' := by simpa using hpb
    have heq : (j, b') = p := Prod.ext hpj.symm hpb'.symm
    rw [heq]
    exact hpdet
  have hnds : ∀ b' : String,
      ((detectedActive.filter (fun p => p.2 = b')).map Prod.fst).Nodup := by
    intro b'
    exact List.Nodup.sublist
      (List.Sublist.map Prod.fst (List.filter_sublist detectedActive)) hnd
  constructor
  · intro h
    unfold activeDropsOnTick
    rcases h with h | h <;> rw [h] <;> simp
  · unfold activeDropsOnTick
    simp only [Bool.not_true, Bool.false_or, if_false, Bool.false_eq_true]
    unfold computeActiveDrops
    have hidxslots : idx ∈ (detectedActive.filter (fun p => p.2 = b)).map Prod.fst :=
      List.mem_map.mpr ⟨(idx, b), List.mem_filter.mpr ⟨hmem, by simp⟩, rfl⟩
    constructor
    · intro h
      obtain ⟨b', hb', hbody⟩ := List.mem_flatMap.mp h
      simp only at hbody
      by_cases hlt : (optimalBounties.filter (fun x => x = b')).length <
          (List.insertionSort (fun a c : ℕ => a ≤ c)
            ((detectedActive.filter (fun p => p.2 = b')).map Prod.fst)).length
      swap
      · rw [if_neg hlt] at hbody
        exact absurd hbody (List.not_mem_nil idx)
      rw [if_pos hlt] at hbody
      obtain ⟨htake, hgrace⟩ := List.mem_filter.mp hbody
      have hperm := List.perm_insertionSort (fun a c : ℕ => a ≤ c)
        ((detectedActive.filter (fun p => p.2 = b')).map Prod.fst)
      have hidxsorted : idx ∈ List.insertionSort (fun a c : ℕ => a ≤ c)
          ((detectedActive.filter (fun p => p.2 = b')).map Prod.fst) :=
        List.take_subset _ _ htake
      have hidxslots' : idx ∈ (detectedActive.filter (fun p => p.2 = b')).map Prod.fst :=
        hperm.mem_iff.mp hidxsorted
      have hbb : b' = b := keyUnique detectedActive hnd idx b' b (hslots b' idx hidxslots') hmem
      subst hbb
      refine ⟨by simpa using hgrace, ?_⟩
      have hsortnd : (List.insertionSort (fun a c : ℕ => a ≤ c)
          ((detectedActive.filter (fun p => p.2 = b')).map Prod.fst)).Nodup :=
        (hperm.nodup_iff).mpr (hnds b')
      have hsorted : (List.insertionSort (fun a c : ℕ => a ≤ c)
          ((detectedActive.filter (fun p => p.2 = b')).map Prod.fst)).Pairwise
          (fun a c => a < c) := by
        have h1 := List.sorted_insertionSort (fun a c : ℕ => a ≤ c)
          ((detectedActive.filter (fun p => p.2 = b')).map Prod.fst)
        exact (List.Pairwise.and h1 hsortnd).imp (fun hac => lt_of_le_of_ne hac.1 hac.2)
      have hcount := (mem_take_of_sorted_lt _ hsorted idx hidxsorted _).mp htake
      have hfilterperm := (hperm.filter (fun y => decide (y < idx))).length_eq
      have hle := length_filter_le_of_mem
        ((detectedActive.filter (fun p => p.2 = b')).map Prod.fst) idx (hnds b') hidxslots
      have hlensort := hperm.length_eq
      omega
    · intro hrhs
      obtain ⟨hgrace, hcount⟩ := hrhs
      apply List.mem_flatMap.mpr
      refine ⟨b, List.mem_dedup.mpr (List.mem_map_of_mem Prod.snd hmem), ?_⟩
      simp only
      have hperm := List.perm_insertionSort (fun a c : ℕ => a ≤ c)
        ((detectedActive.filter (fun p => p.2 = b)).map Prod.fst)
      have hidxsorted : idx ∈ List.insertionSort (fun a c : ℕ => a ≤ c)
          ((detectedActive.filter (fun p => p.2 = b)).map Prod.fst) :=
        hperm.mem_iff.mpr hidxslots
      have hsortnd : (List.insertionSort (fun a c : ℕ => a ≤ c)
          ((detectedActive.filter (fun p => p.2 = b)).map Prod.fst)).Nodup :=
        (hperm.nodup_iff).mpr (hnds b)
      have hsorted : (List.insertionSort (fun a c : ℕ => a ≤ c)
          ((detectedActive.filter (fun p => p.2 = b)).map Prod.fst)).Pairwise
          (fun a c => a < c) := by
        have h1 := List.sorted_insertionSort (fun a c : ℕ => a ≤ c)
          ((detectedActive.filter (fun p => p.2 = b)).map Prod.fst)
        exact (List.Pairwise.and h1 hsortnd).imp (fun hac => lt_of_le_of_ne hac.1 hac.2)
      have hle := length_filter_le_of_mem
        ((detectedActive.filter (fun p => p.2 = b)).map Prod.fst) idx (hnds b) hidxslots
      have hlenpos : 1 ≤ (((detectedActive.filter (fun p => p.2 = b)).map
          Prod.fst).filter (fun j => j ≤ idx)).length := by
        have hmemf : idx ∈ ((detectedActive.filter (fun p => p.2 = b)).map
            Prod.fst).filter (fun j => j ≤ idx) :=
          List.mem_filter.mpr ⟨hidxslots, by simp⟩
        exact List.length_pos.mpr (List.ne_nil_of_mem hmemf)
      have hlensort := hperm.length_eq
      have hlt : (optimalBounties.filter (fun x => x = b)).length <
          (List.insertionSort (fun a c : ℕ => a ≤ c)
            ((detectedActive.filter (fun p => p.2 = b)).map Prod.fst)).length := by
        omega
      rw [if_pos hlt]
      apply List.mem_filter.mpr
      refine ⟨?_, by simpa using hgrace⟩
      apply (mem_take_of_sorted_lt _ hsorted idx hidxsorted _).mpr
      have hfilterperm := (hperm.filter (fun y => decide (y < idx))).length_eq
      omega

/-- Witness for `dropIndicatorsCharacterization`: active slots
`{0:A, 1:A, 2:A, 3:B}`, accepted `{A:2, B:1}`, no grace; slot 0 satisfies
the excess characterization. -/
theorem dropIndicatorsCharacterization_witness :
    ((([(0, "A"), (1, "A"), (2, "A"), (3, "B")] : List (ℕ × String)).map Prod.fst).Nodup ∧
     ((0 : ℕ), ("A" : String)) ∈
       ([(0, "A"), (1, "A"), (2, "A"), (3, "B")] : List (ℕ × String))) ∧
    ((false = true ∨ true = false →
       activeDropsOnTick false true [(0, "A"), (1, "A"), (2, "A"), (3, "B")]
         ["A", "A", "B"] (fun _ => false) = []) ∧
     (0 ∈ activeDropsOnTick false true [(0, "A"), (1, "A"), (2, "A"), (3, "B")]
        ["A", "A", "B"] (fun _ => false) ↔
       ((fun _ : ℕ => false) 0 = false ∧
        ((["A", "A", "B"] : List String).filter (fun x => x = "A")).length +
          (((([(0, "A"), (1, "A"), (2, "A"), (3, "B")] : List (ℕ × String)).filter
              (fun p => p.2 = "A")).map Prod.fst).filter (fun j => j ≤ 0)).length ≤
          ((([(0, "A"), (1, "A"), (2, "A"), (3, "B")] : List (ℕ × String)).filter
            (fun p => p.2 = "A")).map Prod.fst).length))) :=
  ⟨⟨by decide, by decide⟩,
   dropIndicatorsCharacterization false true [(0, "A"), (1, "A"), (2, "A"), (3, "B")]
     ["A", "A", "B"] (fun _ => false) (by decide) 0 "A" (by decide)⟩

/-- C5 counterexample: with accepted `{A:2, B:1}`, active `{A:3, B:1}`
(indices 0,1,2 hold A, 3 holds B), board open, no search in flight and no
slot in a grace window, the highest-index extra A slot (index 2) is NOT
the one flagged: the computed drop set is `[0]`, the lowest-index A
slot. -/
theorem highestIndexExtraNotFlagged :
    ¬ 2 ∈ activeDropsOnTick false true [(0, "A"), (1, "A"), (2, "A"), (3, "B")]
        ["A", "A", "B"] (fun _ => false) := by decide

/-- C5 (amended): with accepted `{A:2, B:1}` and active `{A:3, B:1}`,
board open, no search in flight and every slot outside its grace window,
exactly one active A-slot index is flagged as drop, and it is the
lowest-index extra A slot (index 0). -/
theorem lowestIndexExtraFlagged :
    activeDropsOnTick false true [(0, "A"), (1, "A"), (2, "A"), (3, "B")]
      ["A", "A", "B"] (fun _ => false) = [0] := by decide

theorem mem_pickupsLoop_sound (optimalBounties activeVals : List String)
    (l : List (ℕ × String)) (cnt : String → ℕ) (j : ℕ)
    (h : j ∈ pickupsLoop optimalBounties activeVals l cnt) : j ∈ l.map Prod.fst := by
  induction l generalizing cnt with
  | nil => exact absurd h (List.not_mem_nil j)
  | cons p rest ih =>
    obtain ⟨i, b⟩ := p
    unfold pickupsLoop at h
    by_cases hopt : b ∈ optimalBounties
    · rw [if_pos hopt] at h
      dsimp only at h
      split at h
      · rcases List.mem_cons.mp h with hj | hj
        · rw [hj]
          exact List.mem_cons_self _ _
        · exact List.mem_cons_of_mem _ (ih _ hj)
      · exact List.mem_cons_of_mem _ (ih _ h)
    · rw [if_neg hopt] at h
      exact List.mem_cons_of_mem _ (ih _ h)

theorem mem_pickupsLoop_iff (optimalBounties activeVals : List String)
    (l : List (ℕ × String)) (cnt : String → ℕ) (idx : ℕ) (b : String)
    (hpw : l.Pairwise (fun p q => p.1 < q.1)) (hmem : (idx, b) ∈ l) :
    (idx ∈ pickupsLoop optimalBounties activeVals l cnt ↔
      (b ∈ optimalBounties ∧
       (activeVals.filter (fun x => x = b)).length + cnt b +
         (l.filter (fun p => p.2 = b ∧ p.1 < idx)).length <
         (optimalBounties.filter (fun x => x = b)).length)) := by
  induction l generalizing cnt with
  | nil => exact absurd hmem (List.not_mem_nil _)
  | cons p rest ih =>
    obtain ⟨i0, b0⟩ := p
    rw [List.pairwise_cons] at hpw
    rcases List.mem_cons.mp hmem with hhead | hrest
    · have hib : i0 = idx ∧ b0 = b := by
        have h1 := (Prod.ext_iff.mp hhead.symm)
        exact ⟨h1.1, h1.2⟩
      obtain ⟨hi, hb⟩ := hib
      subst hi
      subst hb
      have hfilt : ((i0, b0) :: rest).filter
          (fun p => p.2 = b0 ∧ p.1 < i0) = [] := by
        rw [List.filter_eq_nil_iff]
        intro q hq
        rcases List.mem_cons.mp hq with hq1 | hq1
        · rw [hq1]
          simp
        · have := hpw.1 q hq1
          simp only [decide_eq_true_eq, Bool.and_eq_true]
          intro hc
          omega
      rw [hfilt]
      unfold pickupsLoop
      by_cases hopt : b0 ∈ optimalBounties
      · rw [if_pos hopt]
        dsimp only
        by_cases hcnt : (activeVals.filter (fun x => x = b0)).length + cnt b0 <
            (optimalBounties.filter (fun x => x = b0)).length
        · rw [if_pos hcnt]
          simp only [List.length_nil, Nat.add_zero]
          exact ⟨fun _ => ⟨hopt, hcnt⟩, fun _ => List.mem_cons_self _ _⟩
        · rw [if_neg hcnt]
          simp only [List.length_nil, Nat.add_zero]
          constructor
          · intro h
            have := mem_pickupsLoop_sound optimalBounties activeVals rest cnt i0 h
            obtain ⟨q, hq, hqi⟩ := List.mem_map.mp this
            have := hpw.1 q hq
            omega
          · intro h
            exact absurd h.2 hcnt
      · rw [if_neg hopt]
        simp only [List.length_nil, Nat.add_zero]
        constructor
        · intro h
          have := mem_pickupsLoop_sound optimalBounties activeVals rest cnt i0 h
          obtain ⟨q, hq, hqi⟩ := List.mem_map.mp this
          have := hpw.1 q hq
          omega
        · intro h
          exact absurd h.1 hopt
    · have hlt : i0 < idx := hpw.1 (idx, b) hrest
      have hne : idx ≠ i0 := fun hc => absurd (hc ▸ hlt) (lt_irrefl idx)
      have hfiltcons : (((i0, b0) :: rest).filter
          (fun p => p.2 = b ∧ p.1 < idx)).length =
          (rest.filter (fun p => p.2 = b ∧ p.1 < idx)).length +
            (if b0 = b then 1 else 0) := by
        by_cases hb0 : b0 = b
        · have hd : decide ((i0, b0).2 = b ∧ (i0, b0).1 < idx) = true := by
            simp [hb0, hlt]
          simp [List.filter_cons, hd, hb0, hlt]
        · have hd : decide ((i0, b0).2 = b ∧ (i0, b0).1 < idx) = false := by
            simp [hb0]
          simp [List.filter_cons, hd, hb0]
      unfold pickupsLoop
      by_cases hopt : b0 ∈ optimalBounties
      · rw [if_pos hopt]
        dsimp only
        by_cases hcnt : (activeVals.filter (fun x => x = b0)).length + cnt b0 <
            (optimalBounties.filter (fun x => x = b0)).length
        · rw [if_pos hcnt]
          rw [List.mem_cons]
          have hih := ih (fun x => if x = b0 then cnt b0 + 1 else cnt x) hpw.2 hrest
          simp only [] at hih
          have hcnt2 : (if b = b0 then cnt b0 + 1 else cnt b) =
              cnt b + (if b0 = b then 1 else 0) := by
            by_cases hb0 : b0 = b
            · simp [hb0]
            · have hb0s : ¬ b = b0 := fun hc => hb0 hc.symm
              simp [hb0, hb0s]
          rw [hcnt2] at hih
          rw [hih, hfiltcons]
          constructor
          · intro h
            rcases h with h | h
            · exact absurd h hne
            · exact ⟨h.1, by omega⟩
          · intro h
            exact Or.inr ⟨h.1, by omega⟩
        · rw [if_neg hcnt]
          have hih := ih cnt hpw.2 hrest
          rw [hih, hfiltcons]
          by_cases hb0 : b0 = b
          · rw [hb0] at hcnt
            constructor
            · intro h
              exact ⟨h.1, by omega⟩
            · intro h
              exact ⟨h.1, by omega⟩
          · simp only [if_neg hb0, Nat.add_zero]
      · rw [if_neg hopt]
        have hih := ih cnt hpw.2 hrest
        rw [hih, hfiltcons]
        by_cases hb0 : b0 = b
        · rw [hb0] at hopt
          constructor
          · intro h
            exact absurd h.1 hopt
          · intro h
            exact absurd h.1 hopt
        · simp only [if_neg hb0, Nat.add_zero]

/-- C6: while the board is open, a board slot `(idx, b)` is flagged for
pickup exactly when its bounty occurs in the accepted solution and the
count of active copies plus board copies of that bounty on
strictly-lower-index slots is below the accepted solution's allowed count,
so slots are flagged in ascending index order until active-plus-flagged
reaches the allowed count; a bounty absent from the accepted solution is
never flagged, and every flagged index is a board slot. -/
theorem pickupIndicatorsCharacterization (updatedBoard updatedActive : List (ℕ × String))
    (optimalBounties : List String) (hnd : (updatedBoard.map Prod.fst).Nodup)
    (idx : ℕ) (b : String) (hmem : (idx, b) ∈ updatedBoard) :
    (idx ∈ computeBoardPickups updatedBoard updatedActive optimalBounties ↔
      (b ∈ optimalBounties ∧
       ((updatedActive.map Prod.snd).filter (fun x => x = b)).length +
         (updatedBoard.filter (fun p => p.2 = b ∧ p.1 < idx)).length <
         (optimalBounties.filter (fun x => x = b)).length)) ∧
    (∀ j, j ∈ computeBoardPickups updatedBoard updatedActive optimalBounties →
       j ∈ updatedBoard.map Prod.fst) := by
  unfold computeBoardPickups
  have hperm := List.perm_insertionSort leFst updatedBoard
  have hmem2 : (idx, b) ∈ List.insertionSort leFst updatedBoard := hperm.mem_iff.mpr hmem
  have hndmap : ((List.insertionSort leFst updatedBoard).map Prod.fst).Nodup :=
    ((hperm.map Prod.fst).nodup_iff).mpr hnd
  have hpairne : (List.insertionSort leFst updatedBoard).Pairwise
      (fun p q => p.1 ≠ q.1) := List.pairwise_map.mp hndmap
  have hsorted : (List.insertionSort leFst updatedBoard).Pairwise leFst :=
    List.sorted_insertionSort leFst updatedBoard
  have hpw : (List.insertionSort leFst updatedBoard).Pairwise
      (fun p q => p.1 < q.1) :=
    (List.Pairwise.and hsorted hpairne).imp (fun h => lt_of_le_of_ne h.1 h.2)
  constructor
  · have hloop := mem_pickupsLoop_iff optimalBounties (updatedActive.map Prod.snd)
      (List.insertionSort leFst updatedBoard) (fun _ => 0) idx b hpw hmem2
    simp only [Nat.add_zero] at hloop
    have hfl := (hperm.filter (fun p => decide (p.2 = b ∧ p.1 < idx))).length_eq
    rw [hloop]
    constructor
    · intro h
      exact ⟨h.1, by omega⟩
    · intro h
      exact ⟨h.1, by omega⟩
  · intro j hj
    have hjs := mem_pickupsLoop_sound optimalBounties (updatedActive.map Prod.snd)
      (List.insertionSort leFst updatedBoard) (fun _ => 0) j hj
    exact ((hperm.map Prod.fst).mem_iff).mp hjs

/-- Witness for `pickupIndicatorsCharacterization`: accepted `{A:2, B:1}`,
active `{A:1}`, board `{0:A, 1:A, 2:C}`; slot 0 satisfies the running
count condition. -/
theorem pickupIndicatorsCharacterization_witness :
    ((([(0, "A"), (1, "A"), (2, "C")] : List (ℕ × String)).map Prod.fst).Nodup ∧
     ((0 : ℕ), ("A" : String)) ∈ ([(0, "A"), (1, "A"), (2, "C")] : List (ℕ × String))) ∧
    ((0 ∈ computeBoardPickups [(0, "A"), (1, "A"), (2, "C")] [(0, "A")] ["A", "A", "B"] ↔
       (("A" : String) ∈ (["A", "A", "B"] : List String) ∧
        ((([(0, "A")] : List (ℕ × String)).map Prod.snd).filter (fun x => x = "A")).length +
          (([(0, "A"), (1, "A"), (2, "C")] : List (ℕ × String)).filter
            (fun p => p.2 = "A" ∧ p.1 < 0)).length <
          ((["A", "A", "B"] : List String).filter (fun x => x = "A")).length)) ∧
     (∀ j, j ∈ computeBoardPickups [(0, "A"), (1, "A"), (2, "C")] [(0, "A")] ["A", "A", "B"] →
        j ∈ ([(0, "A"), (1, "A"), (2, "C")] : List (ℕ × String)).map Prod.fst)) :=
  ⟨⟨by decide, by decide⟩,
   pickupIndicatorsCharacterization [(0, "A"), (1, "A"), (2, "C")] [(0, "A")]
     ["A", "A", "B"] (by decide) 0 "A" (by decide)⟩

theorem length_roundRobin_foldl (n : ℕ) (l : List (ℕ × ComboTask))
    (chunks : List (List ComboTask)) :
    (l.foldl
      (fun cs it => cs.set (it.1 % n) (cs.getD (it.1 % n) [] ++ [it.2]))
      chunks).length = chunks.length := by
  induction l generalizing chunks with
  | nil => rfl
  | cons a t ih => rw [List.foldl_cons, ih, List.length_set]

theorem length_roundRobin (tasks : List ComboTask) (n : ℕ) :
    (roundRobin tasks n).length = n := by
  unfold roundRobin
  rw [length_roundRobin_foldl, List.length_replicate]

theorem getD_roundRobin_foldl (n : ℕ) (l : List (ℕ × ComboTask))
    (chunks : List (List ComboTask)) (hlen : chunks.length = n) (j : ℕ) (hj : j < n) :
    (l.foldl
      (fun cs it => cs.set (it.1 % n) (cs.getD (it.1 % n) [] ++ [it.2]))
      chunks).getD j [] =
      chunks.getD j [] ++ (l.filter (fun it => it.1 % n = j)).map Prod.snd := by
  induction l generalizing chunks with
  | nil => simp
  | cons a t ih =>
    rw [List.foldl_cons]
    have hlen2 : (chunks.set (a.1 % n) (chunks.getD (a.1 % n) [] ++ [a.2])).length = n := by
      rw [List.length_set, hlen]
    rw [ih _ hlen2]
    have hmod : a.1 % n < chunks.length := by
      rw [hlen]
      exact Nat.mod_lt _ (Nat.lt_of_le_of_lt (Nat.zero_le j) hj)
    by_cases hja : a.1 % n = j
    · have hset : (chunks.set (a.1 % n) (chunks.getD (a.1 % n) [] ++ [a.2])).getD j [] =
          chunks.getD j [] ++ [a.2] := by
        rw [List.getD_eq_getElem?_getD, List.getElem?_set, if_pos hja, if_pos hmod]
        simp only [Option.getD_some]
        rw [hja, List.getD_eq_getElem?_getD]
      rw [hset]
      rw [List.filter_cons_of_pos (by simpa using hja), List.map_cons]
      simp
    · have hset : (chunks.set (a.1 % n) (chunks.getD (a.1 % n) [] ++ [a.2])).getD j [] =
          chunks.getD j [] := by
        rw [List.getD_eq_getElem?_getD, List.getElem?_set, if_neg hja,
          List.getD_eq_getElem?_getD]
      rw [hset, List.filter_cons_of_neg (by simpa using hja)]

theorem getD_roundRobin (tasks : List ComboTask) (n : ℕ) (j : ℕ) (hj : j < n) :
    (roundRobin tasks n).getD j [] =
      (tasks.enum.filter (fun it => it.1 % n = j)).map Prod.snd := by
  unfold roundRobin
  rw [getD_roundRobin_foldl n tasks.enum (List.replicate n [])
    (List.length_replicate n []) j hj]
  have hrep : (List.replicate n ([] : List ComboTask)).getD j [] = [] := by
    simp [List.getD_eq_getElem?_getD, List.getElem?_replicate, hj]
  rw [hrep, List.nil_append]

/-- C8: with at most 20 surviving candidates the whole list is dispatched
to one worker and that worker's timeout or error fails the entire search;
with more than 20, candidates are split round-robin over
`min(poolSize, ceil(count/10))` shards, a timed-out or errored shard
contributes an empty result list without failing the search, and the only
error the multi-shard path can raise is `noValidRoutesFound`, raised
exactly when every shard contributed nothing. -/
theorem shardFailureIsolation (maxProcesses : ℕ) (tasksToProcess : List ComboTask)
    (outcome : ℕ → List ComboTask → ShardOutcome) :
    (tasksToProcess ≠ [] → tasksToProcess.length ≤ 20 →
       ((outcome 0 tasksToProcess = ShardOutcome.timeout →
          findBestDispatch maxProcesses tasksToProcess outcome =
            Except.error PoolError.processTimedOut) ∧
        (∀ msg, outcome 0 tasksToProcess = ShardOutcome.procError msg →
          findBestDispatch maxProcesses tasksToProcess outcome =
            Except.error (PoolError.processError msg)))) ∧
    (20 < tasksToProcess.length →
       ((roundRobin tasksToProcess
           (min maxProcesses ((tasksToProcess.length + 9) / 10))).length =
          min maxProcesses ((tasksToProcess.length + 9) / 10) ∧
        (∀ j, j < min maxProcesses ((tasksToProcess.length + 9) / 10) →
          (roundRobin tasksToProcess
             (min maxProcesses ((tasksToProcess.length + 9) / 10))).getD j [] =
            (tasksToProcess.enum.filter
              (fun it =>
                it.1 % (min maxProcesses ((tasksToProcess.length + 9) / 10)) = j)).map
              Prod.snd) ∧
        (∀ e, findBestDispatch maxProcesses tasksToProcess outcome = Except.error e →
          e = PoolError.noValidRoutesFound) ∧
        (findBestDispatch maxProcesses tasksToProcess outcome =
            Except.error PoolError.noValidRoutesFound ↔
          ∀ c ∈ (roundRobin tasksToProcess
              (min maxProcesses ((tasksToProcess.length + 9) / 10))).enum,
            runOnProcessMulti (outcome c.1 c.2) = []))) := by
  constructor
  · intro hne hle
    unfold findBestDispatch
    have h0 : ¬ tasksToProcess.length = 0 := by
      simpa [List.length_eq_zero] using hne
    rw [if_neg h0, if_pos hle]
    constructor
    · intro h
      rw [h]
      rfl
    · intro msg h
      rw [h]
      rfl
  · intro hgt
    have h0 : ¬ tasksToProcess.length = 0 := by omega
    have hnle : ¬ tasksToProcess.length ≤ 20 := by omega
    refine ⟨length_roundRobin _ _, fun j hj => getD_roundRobin _ _ j hj, ?_⟩
    unfold findBestDispatch
    rw [if_neg h0, if_neg hnle]
    dsimp only
    have hkey : (((roundRobin tasksToProcess
          (min maxProcesses ((tasksToProcess.length + 9) / 10))).enum.map
            (fun c => runOnProcessMulti (outcome c.1 c.2))).flatten = [] ↔
        ∀ c ∈ (roundRobin tasksToProcess
            (min maxProcesses ((tasksToProcess.length + 9) / 10))).enum,
          runOnProcessMulti (outcome c.1 c.2) = []) := by
      rw [List.flatten_eq_nil_iff]
      exact List.forall_mem_map
    by_cases hempty : (((roundRobin tasksToProcess
        (min maxProcesses ((tasksToProcess.length + 9) / 10))).enum.map
          (fun c => runOnProcessMulti (outcome c.1 c.2))).flatten).length = 0
    · rw [if_pos hempty]
      constructor
      · intro e he
        have := Except.error.inj he
        exact this.symm
      · rw [List.length_eq_zero] at hempty
        exact ⟨fun _ => hkey.mp hempty, fun _ => rfl⟩
    · rw [if_neg hempty]
      have hslen := (List.perm_insertionSort effDesc
        (((roundRobin tasksToProcess
          (min maxProcesses ((tasksToProcess.length + 9) / 10))).enum.map
            (fun c => runOnProcessMulti (outcome c.1 c.2))).flatten)).length_eq
      cases hs : List.insertionSort effDesc
          (((roundRobin tasksToProcess
            (min maxProcesses ((tasksToProcess.length + 9) / 10))).enum.map
              (fun c => runOnProcessMulti (outcome c.1 c.2))).flatten) with
      | nil =>
        exfalso
        rw [hs] at hslen
        exact hempty hslen.symm
      | cons best rest =>
        dsimp only
        constructor
        · intro e he
          exact absurd he (by simp)
        · constructor
          · intro he
            exact absurd he (by simp)
          · intro hall
            exfalso
            apply hempty
            rw [List.length_eq_zero]
            exact hkey.mpr hall

/-- Witness for `shardFailureIsolation`: 25 identical tasks over a pool of
4 workers, every shard timing out. -/
theorem shardFailureIsolation_witness :
    (20 < (List.replicate 25
       ({ combo := ["x"], kp := 0, estimatedEfficiency := 0 } : ComboTask)).length) ∧
    ((roundRobin
        (List.replicate 25
          ({ combo := ["x"], kp := 0, estimatedEfficiency := 0 } : ComboTask))
        (min 4 (((List.replicate 25
          ({ combo := ["x"], kp := 0, estimatedEfficiency := 0 } : ComboTask)).length
            + 9) / 10))).length =
       min 4 (((List.replicate 25
         ({ combo := ["x"], kp := 0, estimatedEfficiency := 0 } : ComboTask)).length
           + 9) / 10) ∧
     (∀ j, j < min 4 (((List.replicate 25
          ({ combo := ["x"], kp := 0, estimatedEfficiency := 0 } : ComboTask)).length
            + 9) / 10) →
       (roundRobin
          (List.replicate 25
            ({ combo := ["x"], kp := 0, estimatedEfficiency := 0 } : ComboTask))
          (min 4 (((List.replicate 25
            ({ combo := ["x"], kp := 0, estimatedEfficiency := 0 } : ComboTask)).length
              + 9) / 10))).getD j [] =
         ((List.replicate 25
            ({ combo := ["x"], kp := 0, estimatedEfficiency := 0 } : ComboTask)).enum.filter
           (fun it => it.1 % (min 4 (((List.replicate 25
             ({ combo := ["x"], kp := 0, estimatedEfficiency := 0 } : ComboTask)).length
               + 9) / 10)) = j)).map Prod.snd) ∧
     (∀ e, findBestDispatch 4
         (List.replicate 25
           ({ combo := ["x"], kp := 0, estimatedEfficiency := 0 } : ComboTask))
         (fun _ _ => ShardOutcome.timeout) = Except.error e →
       e = PoolError.noValidRoutesFound) ∧
     (findBestDispatch 4
         (List.replicate 25
           ({ combo := ["x"], kp := 0, estimatedEfficiency := 0 } : ComboTask))
         (fun _ _ => ShardOutcome.timeout) =
           Except.error PoolError.noValidRoutesFound ↔
       ∀ c ∈ (roundRobin
           (List.replicate 25
             ({ combo := ["x"], kp := 0, estimatedEfficiency := 0 } : ComboTask))
           (min 4 (((List.replicate 25
             ({ combo := ["x"], kp := 0, estimatedEfficiency := 0 } : ComboTask)).length
               + 9) / 10))).enum,
         runOnProcessMulti ((fun _ _ => ShardOutcome.timeout) c.1 c.2) = [])) :=
  ⟨by decide,
   (shardFailureIsolation 4
     (List.replicate 25
       ({ combo := ["x"], kp := 0, estimatedEfficiency := 0 } : ComboTask))
     (fun _ _ => ShardOutcome.timeout)).2 (by decide)⟩
